import Mathlib

/-!
Verification development for the localwebeditor repository.

Part A embeds the poll-based tree reconciler of the `DirectoryViewerWidget`
variant that carries `updateDomTree` (`buildDirectoryTree`, `createDomNode`,
`updateDomTree`): directory snapshots are ordered association lists mirroring
the insertion-ordered `Map<string, DirectoryNode>`, the rendered DOM is the
`Vis` tree (one constructor per `li` shape), and every DOM mutation is logged
as an `Op`.

Part B embeds the interaction layer of `src/index.ts` together with
`widgets/ContentWidget.ts` and `widgets/DirectoryViewerWidget.ts`: the
per-entry click timer, the `fileOpened` handler with its preview and commit
branches, the monaco model registry, and the `ContentWidget` lifecycle.
-/

namespace LocalWebEditor

/-- The `kind` discriminator of the TypeScript `DirectoryNode` record
(`'file' | 'directory'`). -/
inductive FKind where
  | file
  | directory
deriving DecidableEq, Repr

/-- A snapshot node. The source stores `{ name, kind, handle, children? }`
where `children` is an insertion-ordered `Map<string, DirectoryNode>` that is
populated exactly for directories; we embed the map as an ordered association
list of `(key, node)` pairs.  The opaque `handle` is irrelevant to the diff
and is dropped. -/
inductive DNode where
  | file (name : String)
  | dir (name : String) (children : List (String × DNode))
deriving Repr

/-- `node.name`. -/
def DNode.name : DNode → String
  | .file n => n
  | .dir n _ => n

/-- `node.kind`. -/
def DNode.kind : DNode → FKind
  | .file _ => FKind.file
  | .dir _ _ => FKind.directory

/-- `node.children!` (empty for files; the source only dereferences
`children` on directory nodes). -/
def DNode.children : DNode → List (String × DNode)
  | .file _ => []
  | .dir _ cs => cs

/-- `Map.prototype.get`: the value of the single binding for `key`
(insertion-ordered maps cannot bind a key twice, so first binding = the
binding). -/
def getV : List (String × DNode) → String → Option DNode
  | [], _ => none
  | (k, v) :: rest, key => if k = key then some v else getV rest key

/-- The rendered `li` element for one node.  A file `li` carries no `ul`;
a directory `li` carries the `expanded`/`collapsed` class pair and one
nested `ul` whose element children are the rendered child `li`s.  `id`
models DOM object identity (`===`), `path` the `data-path` attribute. -/
inductive Vis where
  | file (id : Nat) (path : String)
  | dir (id : Nat) (path : String) (expanded : Bool) (kids : List Vis)
deriving Repr

/-- The `data-path` attribute of an `li`. -/
def Vis.path : Vis → String
  | .file _ p => p
  | .dir _ p _ _ => p

/-- The DOM identity of an `li`. -/
def Vis.idTag : Vis → Nat
  | .file i _ => i
  | .dir i _ _ _ => i

/-- One DOM structure mutation performed by the reconciler, tagged with the
`data-path` it acts at: `attach` is `domUl.appendChild`, `detach` is
`domUl.removeChild`, `replace` is `parentElement.replaceChild` (the
full-replace branch). -/
inductive Op where
  | attach (path : String)
  | detach (path : String)
  | replace (path : String)
deriving DecidableEq, Repr

/-- `path ? `${path}/${node.name}` : node.name` — the conditional join used
when computing `currentPath` in `createDomNode` and `updateDomTree`. -/
def joinPath (path name : String) : String :=
  if path = "" then name else path ++ "/" ++ name

/-- `${currentPath}/${name}` — the unconditional join used in the
`querySelector` calls of the three diff loops. -/
def childPath (curPath name : String) : String := curPath ++ "/" ++ name

/-- `domUl.querySelector(`[data-path="..."]`)`.  The source query searches
all descendants, but a `data-path` equal to `currentPath/name` can only
belong to a direct child of the `ul`: every deeper descendant's `data-path`
extends its parent's by a further `/segment`.  We therefore model the query
as a first-match scan of the `ul`'s element children. -/
def findChild : List Vis → String → Option Vis
  | [], _ => none
  | v :: vs, p => if v.path = p then some v else findChild vs p

/-- `domUl.removeChild(el)` for the element found at `p`. -/
def removeChildByPath : List Vis → String → List Vis
  | [], _ => []
  | v :: vs, p => if v.path = p then vs else v :: removeChildByPath vs p

/-- In-place mutation (or `replaceChild`) of the element found at `p`. -/
def replaceChildByPath : List Vis → String → Vis → List Vis
  | [], _, _ => []
  | v :: vs, p, w => if v.path = p then w :: vs else v :: replaceChildByPath vs p w

/-- The `classList` updates at the head of the directory branch of
`updateDomTree`: force the `expanded`/`collapsed` class pair to match
expansion-set membership.  A file `li` has no such pair, so the class
toggle is invisible in the model. -/
def setExpandClass : Vis → Bool → Vis
  | .file i p, _ => .file i p
  | .dir i p _ ks, e => .dir i p e ks

mutual

/-- `createDomNode(node, path)` of the reconciler variant: renders one node
to a fresh `li`.  An expanded directory renders its children eagerly, a
collapsed one renders an empty `ul`.  `cnt` is the allocator for fresh DOM
identities; it is threaded through and returned. -/
def createDomNode (eps : List String) (node : DNode) (path : String) (cnt : Nat) :
    Vis × Nat :=
  let currentPath := joinPath path node.name
  match node with
  | .file _ => (Vis.file cnt currentPath, cnt + 1)
  | .dir _ cs =>
    if currentPath ∈ eps then
      let r := createDomList eps cs currentPath (cnt + 1)
      (Vis.dir cnt currentPath true r.1, r.2)
    else
      (Vis.dir cnt currentPath false [], cnt + 1)

/-- The `for (const [name, childNode] of node.children!)` rendering loop of
`createDomNode`. -/
def createDomList (eps : List String) (pairs : List (String × DNode)) (curPath : String)
    (cnt : Nat) : List Vis × Nat :=
  match pairs with
  | [] => ([], cnt)
  | (_, c) :: rest =>
    let r := createDomNode eps c curPath cnt
    let r2 := createDomList eps rest curPath r.2
    (r.1 :: r2.1, r2.2)

end

/-- Removal loop of `updateDomTree`: iterate the old child names in their
enumeration order and, for every name missing from the new snapshot, query
the `li` at `currentPath/name` and remove it when present.  (`oldNames` and
`newNames` are `Set`s built from the `Map` keys; a map binds each key once,
so the key list itself is the iteration order of the set.) -/
def removeLoop (oldNames newNames : List String) (ul : List Vis) (curPath : String) :
    List Op × List Vis :=
  match oldNames with
  | [] => ([], ul)
  | k :: rest =>
    if k ∈ newNames then removeLoop rest newNames ul curPath
    else
      match findChild ul (childPath curPath k) with
      | some _ =>
        let r := removeLoop rest newNames (removeChildByPath ul (childPath curPath k)) curPath
        (Op.detach (childPath curPath k) :: r.1, r.2)
      | none => removeLoop rest newNames ul curPath

/-- Addition loop of `updateDomTree`: iterate the new child names in their
enumeration order and, for every name missing from the old snapshot, render
`newChildren.get(name)!` to a fresh `li` and append it to the `ul`.
Iterating the `(name, node)` pairs of the new map is the source's iteration
of `newNames` combined with its `newChildren.get(name)!`. -/
def addLoop (eps : List String) (newPairs : List (String × DNode)) (oldNames : List String)
    (ul : List Vis) (curPath : String) (cnt : Nat) : List Op × List Vis × Nat :=
  match newPairs with
  | [] => ([], ul, cnt)
  | (k, c) :: rest =>
    if k ∈ oldNames then addLoop eps rest oldNames ul curPath cnt
    else
      let r := createDomNode eps c curPath cnt
      let r2 := addLoop eps rest oldNames (ul ++ [r.1]) curPath r.2
      (Op.attach r.1.path :: r2.1, r2.2)

mutual

/-- `updateDomTree(oldNode, newNode, domElement, path)`: the reconciler.
Kind or name mismatch rebuilds the whole subtree (`replaceChild`); a
directory pair re-syncs the `expanded`/`collapsed` classes, bails out when
the `li` has no `ul` (`if (!domUl) return`), and runs the removal, addition
and recursion loops on the `ul`'s children.  A same-name file pair does
nothing.  The result is the list of DOM structure operations in execution
order, the element as left in the DOM, and the identity allocator. -/
def updateDomTree (eps : List String) (oldNode newNode : DNode) (dom : Vis)
    (path : String) (cnt : Nat) : List Op × Vis × Nat :=
  let currentPath := joinPath path oldNode.name
  if oldNode.kind ≠ newNode.kind ∨ oldNode.name ≠ newNode.name then
    let r := createDomNode eps newNode path cnt
    ([Op.replace currentPath], r.1, r.2)
  else
    match oldNode, newNode with
    | DNode.dir _ oldcs, DNode.dir _ newcs =>
      let dom1 := setExpandClass dom (currentPath ∈ eps)
      match dom1 with
      | Vis.file i p => ([], Vis.file i p, cnt)
      | Vis.dir i p e ul =>
        let oldNames := oldcs.map Prod.fst
        let newNames := newcs.map Prod.fst
        let r1 := removeLoop oldNames newNames ul currentPath
        let r2 := addLoop eps newcs oldNames r1.2 currentPath cnt
        let r3 := commonLoop eps oldcs newcs oldNames r2.2.1 currentPath r2.2.2
        (r1.1 ++ r2.1 ++ r3.1, Vis.dir i p e r3.2.1, r3.2.2)
    | _, _ => ([], dom, cnt)

/-- Recursion loop of `updateDomTree`: iterate the new child names in their
enumeration order and, for every name also present in the old snapshot,
recurse into the pair `(oldChildren.get(name)!, newChildren.get(name)!)` at
the `li` found at `currentPath/name` (skipping when the query finds
nothing).  The recursion's resulting element replaces the queried one in
the `ul`. -/
def commonLoop (eps : List String) (oldChildren : List (String × DNode))
    (newPairs : List (String × DNode)) (oldNames : List String) (ul : List Vis)
    (curPath : String) (cnt : Nat) : List Op × List Vis × Nat :=
  match newPairs with
  | [] => ([], ul, cnt)
  | (k, c) :: rest =>
    if k ∈ oldNames then
      match getV oldChildren k with
      | some oldc =>
        match findChild ul (childPath curPath k) with
        | some cd =>
          let r := updateDomTree eps oldc c cd curPath cnt
          let r2 := commonLoop eps oldChildren rest oldNames
            (replaceChildByPath ul (childPath curPath k) r.2.1) curPath r.2.2
          (r.1 ++ r2.1, r2.2)
        | none => commonLoop eps oldChildren rest oldNames ul curPath cnt
      | none => commonLoop eps oldChildren rest oldNames ul curPath cnt
    else commonLoop eps oldChildren rest oldNames ul curPath cnt

end

mutual

/-- Erase the `expanded` flag everywhere, keeping identities, paths and
structure: the part of an `li` that `updateDomTree`'s class toggles may
legitimately touch. -/
def stripExpand : Vis → Vis
  | .file i p => .file i p
  | .dir i p _ ks => .dir i p false (stripExpandList ks)

/-- `stripExpand` on each element of a `ul`. -/
def stripExpandList : List Vis → List Vis
  | [] => []
  | v :: vs => stripExpand v :: stripExpandList vs

end

/-- Pairwise distinctness of a key list. -/
def dupFreeKeys : List String → Bool
  | [] => true
  | x :: xs => (!decide (x ∈ xs)) && dupFreeKeys xs

mutual

/-- Well-formedness of a snapshot: at every directory the child keys are
pairwise distinct.  Every tree built by `buildDirectoryTree` satisfies this
because `children` is a `Map`, which cannot bind one key twice. -/
def nodupKeys : DNode → Bool
  | .file _ => true
  | .dir _ cs => dupFreeKeys (cs.map Prod.fst) && nodupKeysList cs

/-- `nodupKeys` on each child of a directory. -/
def nodupKeysList : List (String × DNode) → Bool
  | [] => true
  | (_, c) :: rest => nodupKeys c && nodupKeysList rest

end

/-! Lemmas about the reconciliation loops, used for the idempotence claim. -/

theorem removeLoop_subset (newNames : List String) (curPath : String) :
    ∀ (oldNames : List String) (ul : List Vis),
      (∀ k ∈ oldNames, k ∈ newNames) →
      removeLoop oldNames newNames ul curPath = ([], ul) := by
  intro oldNames
  induction oldNames with
  | nil => intro ul _; rfl
  | cons k rest ih =>
    intro ul h
    have hk : k ∈ newNames := h k (List.mem_cons_self k rest)
    simp [removeLoop, hk, ih ul (fun x hx => h x (List.mem_cons_of_mem k hx))]

theorem addLoop_subset (eps : List String) (oldNames : List String) (curPath : String) :
    ∀ (pairs : List (String × DNode)) (ul : List Vis) (cnt : Nat),
      (∀ q ∈ pairs, q.1 ∈ oldNames) →
      addLoop eps pairs oldNames ul curPath cnt = ([], ul, cnt) := by
  intro pairs
  induction pairs with
  | nil => intro ul cnt _; rfl
  | cons q rest ih =>
    intro ul cnt h
    obtain ⟨k, c⟩ := q
    have hk : k ∈ oldNames := h (k, c) (List.mem_cons_self _ rest)
    simp [addLoop, hk, ih ul cnt (fun x hx => h x (List.mem_cons_of_mem _ hx))]

theorem getV_nodup :
    ∀ (cs : List (String × DNode)) (k : String) (c : DNode),
      dupFreeKeys (cs.map Prod.fst) = true → (k, c) ∈ cs → getV cs k = some c := by
  intro cs
  induction cs with
  | nil => intro k c _ hmem; simp at hmem
  | cons q rest ih =>
    intro k c hdup hmem
    obtain ⟨k0, c0⟩ := q
    simp only [List.map_cons, dupFreeKeys, Bool.and_eq_true, Bool.not_eq_true',
      decide_eq_false_iff_not] at hdup
    rcases List.mem_cons.mp hmem with heq | hrest
    · cases heq
      simp [getV]
    · have hne : ¬ (k0 = k) := by
        intro he
        subst he
        exact hdup.1 (List.mem_map_of_mem Prod.fst hrest)
      simp [getV, hne, ih k c hdup.2 hrest]

theorem nodupKeysList_mem :
    ∀ (cs : List (String × DNode)) (k : String) (c : DNode),
      nodupKeysList cs = true → (k, c) ∈ cs → nodupKeys c = true := by
  intro cs
  induction cs with
  | nil => intro k c _ hmem; simp at hmem
  | cons q rest ih =>
    intro k c hl hmem
    obtain ⟨k0, c0⟩ := q
    simp only [nodupKeysList, Bool.and_eq_true] at hl
    rcases List.mem_cons.mp hmem with heq | hrest
    · cases heq; exact hl.1
    · exact ih k c hl.2 hrest

theorem strip_replace :
    ∀ (ul : List Vis) (p : String) (v w : Vis),
      findChild ul p = some v → stripExpand w = stripExpand v →
      stripExpandList (replaceChildByPath ul p w) = stripExpandList ul := by
  intro ul
  induction ul with
  | nil => intro p v w hf _; simp [findChild] at hf
  | cons u us ih =>
    intro p v w hf hs
    by_cases hp : u.path = p
    · have hv : u = v := by simpa [findChild, hp] using hf
      subst hv
      simp [replaceChildByPath, hp, stripExpandList, hs]
    · simp only [findChild, if_neg hp] at hf
      simp [replaceChildByPath, hp, stripExpandList, ih p v w hf hs]

theorem commonLoop_self (eps : List String) (curPath : String)
    (oldChildren : List (String × DNode)) (oldNames : List String) :
    ∀ (pairs : List (String × DNode)) (ul : List Vis) (cnt : Nat),
      (∀ k c, (k, c) ∈ pairs → getV oldChildren k = some c) →
      (∀ k c, (k, c) ∈ pairs →
        ∀ (dom : Vis) (path : String) (cnt' : Nat),
          (updateDomTree eps c c dom path cnt').1 = [] ∧
          stripExpand (updateDomTree eps c c dom path cnt').2.1 = stripExpand dom ∧
          (updateDomTree eps c c dom path cnt').2.2 = cnt') →
      (commonLoop eps oldChildren pairs oldNames ul curPath cnt).1 = [] ∧
      stripExpandList (commonLoop eps oldChildren pairs oldNames ul curPath cnt).2.1 =
        stripExpandList ul ∧
      (commonLoop eps oldChildren pairs oldNames ul curPath cnt).2.2 = cnt := by
  intro pairs
  induction pairs with
  | nil => intro ul cnt _ _; exact ⟨rfl, rfl, rfl⟩
  | cons q rest ih =>
    intro ul cnt hget hidem
    obtain ⟨k, c⟩ := q
    have hget_rest : ∀ k' c', (k', c') ∈ rest → getV oldChildren k' = some c' :=
      fun k' c' hm => hget k' c' (List.mem_cons_of_mem _ hm)
    have hidem_rest : ∀ k' c', (k', c') ∈ rest →
        ∀ (dom : Vis) (path : String) (cnt' : Nat),
          (updateDomTree eps c' c' dom path cnt').1 = [] ∧
          stripExpand (updateDomTree eps c' c' dom path cnt').2.1 = stripExpand dom ∧
          (updateDomTree eps c' c' dom path cnt').2.2 = cnt' :=
      fun k' c' hm => hidem k' c' (List.mem_cons_of_mem _ hm)
    by_cases hmemo : k ∈ oldNames
    · have hv : getV oldChildren k = some c := hget k c (List.mem_cons_self _ _)
      cases hf : findChild ul (childPath curPath k) with
      | none => simpa [commonLoop, hmemo, hv, hf] using ih ul cnt hget_rest hidem_rest
      | some cd =>
        obtain ⟨h1, h2, h3⟩ := hidem k c (List.mem_cons_self _ _) cd curPath cnt
        have hrep := strip_replace ul (childPath curPath k)
          cd (updateDomTree eps c c cd curPath cnt).2.1 hf h2
        have hrest := ih (replaceChildByPath ul (childPath curPath k)
          (updateDomTree eps c c cd curPath cnt).2.1) cnt hget_rest hidem_rest
        refine ⟨?_, ?_, ?_⟩ <;>
          simp [commonLoop, hmemo, hv, hf, h1, h3, hrest.1, hrest.2.1, hrest.2.2, hrep]
    · simpa [commonLoop, hmemo] using ih ul cnt hget_rest hidem_rest

/-- C1.  Reconciliation is idempotent: for every snapshot `S` (well-formed in
that every directory's `Map` binds each child name once, as every tree built
by `buildDirectoryTree` is), diffing `S` against itself performs zero attach,
detach and replace operations on the visual tree, allocates no fresh visual
node, and leaves the identity, path and structure of every visual subtree
node untouched (at most the `expanded`/`collapsed` class pair is re-synced,
which `stripExpand` erases). -/
theorem updateDomTree_idempotent :
    ∀ (S : DNode), nodupKeys S = true →
    ∀ (eps : List String) (dom : Vis) (path : String) (cnt : Nat),
      (updateDomTree eps S S dom path cnt).1 = [] ∧
      stripExpand (updateDomTree eps S S dom path cnt).2.1 = stripExpand dom ∧
      (updateDomTree eps S S dom path cnt).2.2 = cnt
  | DNode.file nm => by
    intro hS eps dom path cnt
    refine ⟨?_, ?_, ?_⟩ <;> simp [updateDomTree, DNode.kind, DNode.name]
  | DNode.dir nm cs => by
    intro hS eps dom path cnt
    simp only [nodupKeys, Bool.and_eq_true] at hS
    have hget : ∀ k c, (k, c) ∈ cs → getV cs k = some c :=
      fun k c hm => getV_nodup cs k c hS.1 hm
    have hidem : ∀ k c, (k, c) ∈ cs →
        ∀ (dom' : Vis) (path' : String) (cnt' : Nat),
          (updateDomTree eps c c dom' path' cnt').1 = [] ∧
          stripExpand (updateDomTree eps c c dom' path' cnt').2.1 = stripExpand dom' ∧
          (updateDomTree eps c c dom' path' cnt').2.2 = cnt' :=
      fun k c hm dom' path' cnt' =>
        updateDomTree_idempotent c (nodupKeysList_mem cs k c hS.2 hm) eps dom' path' cnt'
    cases dom with
    | file i p =>
      refine ⟨?_, ?_, ?_⟩ <;>
        simp [updateDomTree, DNode.kind, DNode.name, setExpandClass]
    | dir i p e ul =>
      have hrem := removeLoop_subset (cs.map Prod.fst) (joinPath path nm)
        (cs.map Prod.fst) ul (fun k hk => hk)
      have hadd := addLoop_subset eps (cs.map Prod.fst) (joinPath path nm) cs ul cnt
        (fun q hq => List.mem_map_of_mem Prod.fst hq)
      have hcom := commonLoop_self eps (joinPath path nm) cs (cs.map Prod.fst) cs ul cnt
        hget hidem
      refine ⟨?_, ?_, ?_⟩ <;>
        simp [updateDomTree, DNode.kind, DNode.name, DNode.children, setExpandClass,
          hrem, hadd, hcom.1, hcom.2.1, hcom.2.2, stripExpand]
termination_by S => sizeOf S
decreasing_by
  have h1 := List.sizeOf_lt_of_mem hm
  simp at h1 ⊢
  omega

/-- Witness for C1: the hypothesis and conclusion instantiated at a concrete
two-level snapshot and its rendered DOM. -/
theorem updateDomTree_idempotent_witness :
    nodupKeys (DNode.dir "root" [("a", DNode.file "a"),
      ("c", DNode.dir "c" [("x", DNode.file "x")])]) = true ∧
    ((updateDomTree ["root", "root/c"]
        (DNode.dir "root" [("a", DNode.file "a"),
          ("c", DNode.dir "c" [("x", DNode.file "x")])])
        (DNode.dir "root" [("a", DNode.file "a"),
          ("c", DNode.dir "c" [("x", DNode.file "x")])])
        (createDomNode ["root", "root/c"]
          (DNode.dir "root" [("a", DNode.file "a"),
            ("c", DNode.dir "c" [("x", DNode.file "x")])]) "" 0).1 "" 5).1 = [] ∧
      stripExpand (updateDomTree ["root", "root/c"]
        (DNode.dir "root" [("a", DNode.file "a"),
          ("c", DNode.dir "c" [("x", DNode.file "x")])])
        (DNode.dir "root" [("a", DNode.file "a"),
          ("c", DNode.dir "c" [("x", DNode.file "x")])])
        (createDomNode ["root", "root/c"]
          (DNode.dir "root" [("a", DNode.file "a"),
            ("c", DNode.dir "c" [("x", DNode.file "x")])]) "" 0).1 "" 5).2.1 =
        stripExpand (createDomNode ["root", "root/c"]
          (DNode.dir "root" [("a", DNode.file "a"),
            ("c", DNode.dir "c" [("x", DNode.file "x")])]) "" 0).1 ∧
      (updateDomTree ["root", "root/c"]
        (DNode.dir "root" [("a", DNode.file "a"),
          ("c", DNode.dir "c" [("x", DNode.file "x")])])
        (DNode.dir "root" [("a", DNode.file "a"),
          ("c", DNode.dir "c" [("x", DNode.file "x")])])
        (createDomNode ["root", "root/c"]
          (DNode.dir "root" [("a", DNode.file "a"),
            ("c", DNode.dir "c" [("x", DNode.file "x")])]) "" 0).1 "" 5).2.2 = 5) :=
  ⟨by decide, updateDomTree_idempotent _ (by decide) _ _ _ _⟩

/-- C2.  Diff minimality on `{a,b,c} → {b,c,d}` (with `b` a file and `c` an
expanded directory on both sides): one reconciliation pass emits exactly one
detach — of `a`'s `li` — and exactly one attach — of one fresh `li` for `d`
(identity `5`, the first unallocated one) — and recurses into the pairs for
`b` and `c` without rebuilding them: their `li`s keep identities `2` and `3`
(and `c`'s subtree keeps identity `4`) exactly as rendered from the old
snapshot, where `a`, `b`, `c` had identities `1`, `2`, `3`. -/
theorem updateDomTree_diff_minimal :
    updateDomTree ["root", "root/c"]
      (DNode.dir "root" [("a", DNode.file "a"), ("b", DNode.file "b"),
        ("c", DNode.dir "c" [("x", DNode.file "x")])])
      (DNode.dir "root" [("b", DNode.file "b"),
        ("c", DNode.dir "c" [("x", DNode.file "x")]), ("d", DNode.file "d")])
      (createDomNode ["root", "root/c"]
        (DNode.dir "root" [("a", DNode.file "a"), ("b", DNode.file "b"),
          ("c", DNode.dir "c" [("x", DNode.file "x")])]) "" 0).1 "" 5 =
    ([Op.detach "root/a", Op.attach "root/d"],
     Vis.dir 0 "root" true
       [Vis.file 2 "root/b",
        Vis.dir 3 "root/c" true [Vis.file 4 "root/c/x"],
        Vis.file 5 "root/d"],
     6) ∧
    (createDomNode ["root", "root/c"]
      (DNode.dir "root" [("a", DNode.file "a"), ("b", DNode.file "b"),
        ("c", DNode.dir "c" [("x", DNode.file "x")])]) "" 0).1 =
    Vis.dir 0 "root" true
      [Vis.file 1 "root/a", Vis.file 2 "root/b",
       Vis.dir 3 "root/c" true [Vis.file 4 "root/c/x"]] :=
  ⟨rfl, rfl⟩

/-! Lemmas characterising the order of the reconciliation loops. -/

theorem createDomNode_path (eps : List String) (c : DNode) (p : String) (cnt : Nat) :
    (createDomNode eps c p cnt).1.path = joinPath p c.name := by
  cases c with
  | file nm => rfl
  | dir nm cs =>
    simp only [createDomNode, DNode.name]
    split <;> simp [Vis.path]

theorem addLoop_ops (eps : List String) (oldNames : List String) (curPath : String) :
    ∀ (pairs : List (String × DNode)) (ul : List Vis) (cnt : Nat),
      (addLoop eps pairs oldNames ul curPath cnt).1 =
        (pairs.filter (fun q => !(decide (q.1 ∈ oldNames)))).map
          (fun q => Op.attach (joinPath curPath q.2.name)) := by
  intro pairs
  induction pairs with
  | nil => intro ul cnt; rfl
  | cons q rest ih =>
    intro ul cnt
    obtain ⟨k, c⟩ := q
    by_cases hk : k ∈ oldNames
    · simp [addLoop, hk, ih]
    · simp [addLoop, hk, ih, createDomNode_path]

theorem removeLoop_ops (newNames : List String) (curPath : String) :
    ∀ (oldNames : List String) (ul : List Vis),
      ∃ l : List String,
        List.Sublist l (oldNames.filter (fun k => !(decide (k ∈ newNames)))) ∧
        (removeLoop oldNames newNames ul curPath).1 =
          l.map (fun k => Op.detach (childPath curPath k)) := by
  intro oldNames
  induction oldNames with
  | nil => intro ul; exact ⟨[], List.Sublist.refl [], rfl⟩
  | cons k rest ih =>
    intro ul
    by_cases hk : k ∈ newNames
    · obtain ⟨l, hsub, hops⟩ := ih ul
      refine ⟨l, ?_, ?_⟩
      · simpa [List.filter, hk] using hsub
      · simp [removeLoop, hk, hops]
    · cases hf : findChild ul (childPath curPath k) with
      | some v =>
        obtain ⟨l, hsub, hops⟩ := ih (removeChildByPath ul (childPath curPath k))
        refine ⟨k :: l, ?_, ?_⟩
        · simpa [List.filter, hk] using List.Sublist.cons₂ k hsub
        · simp [removeLoop, hk, hf, hops]
      | none =>
        obtain ⟨l, hsub, hops⟩ := ih ul
        refine ⟨l, ?_, ?_⟩
        · simpa [List.filter, hk] using List.Sublist.cons k hsub
        · simp [removeLoop, hk, hf, hops]

theorem updateDomTree_dir_ops (eps : List String) (nm : String)
    (oldcs newcs : List (String × DNode)) (i : Nat) (p : String) (e : Bool)
    (ul : List Vis) (path : String) (cnt : Nat) :
    (updateDomTree eps (DNode.dir nm oldcs) (DNode.dir nm newcs)
        (Vis.dir i p e ul) path cnt).1 =
      (removeLoop (oldcs.map Prod.fst) (newcs.map Prod.fst) ul (joinPath path nm)).1 ++
      (addLoop eps newcs (oldcs.map Prod.fst)
        (removeLoop (oldcs.map Prod.fst) (newcs.map Prod.fst) ul (joinPath path nm)).2
        (joinPath path nm) cnt).1 ++
      (commonLoop eps oldcs newcs (oldcs.map Prod.fst)
        (addLoop eps newcs (oldcs.map Prod.fst)
          (removeLoop (oldcs.map Prod.fst) (newcs.map Prod.fst) ul (joinPath path nm)).2
          (joinPath path nm) cnt).2.1
        (joinPath path nm)
        (addLoop eps newcs (oldcs.map Prod.fst)
          (removeLoop (oldcs.map Prod.fst) (newcs.map Prod.fst) ul (joinPath path nm)).2
          (joinPath path nm) cnt).2.2).1 := by
  simp [updateDomTree, DNode.kind, DNode.name, DNode.children, setExpandClass]

/-- C8.  Ordering policy of one reconciliation pass on a directory pair:
(1) the emitted operations are exactly the removal-loop detaches, then the
addition-loop attaches, then the recursion-loop operations; (2) the attaches
are exactly the new children absent from the old name set, mapped in the new
snapshot's enumeration order (the order the external store reported), with
no sorting applied; (3) the detaches are an order-preserving sublist of the
old children absent from the new name set, in the old snapshot's enumeration
order (the order the external store reported for the previous snapshot;
removed names have no position in the new snapshot), again with no sorting
applied.  The recursion loop (`commonLoop`) iterates the new snapshot's
pairs in enumeration order by construction. -/
theorem updateDomTree_enumeration_order :
    (∀ (eps : List String) (nm : String) (oldcs newcs : List (String × DNode))
        (i : Nat) (p : String) (e : Bool) (ul : List Vis) (path : String) (cnt : Nat),
      (updateDomTree eps (DNode.dir nm oldcs) (DNode.dir nm newcs)
          (Vis.dir i p e ul) path cnt).1 =
        (removeLoop (oldcs.map Prod.fst) (newcs.map Prod.fst) ul (joinPath path nm)).1 ++
        (addLoop eps newcs (oldcs.map Prod.fst)
          (removeLoop (oldcs.map Prod.fst) (newcs.map Prod.fst) ul (joinPath path nm)).2
          (joinPath path nm) cnt).1 ++
        (commonLoop eps oldcs newcs (oldcs.map Prod.fst)
          (addLoop eps newcs (oldcs.map Prod.fst)
            (removeLoop (oldcs.map Prod.fst) (newcs.map Prod.fst) ul (joinPath path nm)).2
            (joinPath path nm) cnt).2.1
          (joinPath path nm)
          (addLoop eps newcs (oldcs.map Prod.fst)
            (removeLoop (oldcs.map Prod.fst) (newcs.map Prod.fst) ul (joinPath path nm)).2
            (joinPath path nm) cnt).2.2).1) ∧
    (∀ (eps : List String) (oldNames : List String) (curPath : String)
        (pairs : List (String × DNode)) (ul : List Vis) (cnt : Nat),
      (addLoop eps pairs oldNames ul curPath cnt).1 =
        (pairs.filter (fun q => !(decide (q.1 ∈ oldNames)))).map
          (fun q => Op.attach (joinPath curPath q.2.name))) ∧
    (∀ (newNames : List String) (curPath : String) (oldNames : List String)
        (ul : List Vis),
      ∃ l : List String,
        List.Sublist l (oldNames.filter (fun k => !(decide (k ∈ newNames)))) ∧
        (removeLoop oldNames newNames ul curPath).1 =
          l.map (fun k => Op.detach (childPath curPath k))) :=
  ⟨fun eps nm oldcs newcs i p e ul path cnt =>
      updateDomTree_dir_ops eps nm oldcs newcs i p e ul path cnt,
   fun eps oldNames curPath pairs ul cnt => addLoop_ops eps oldNames curPath pairs ul cnt,
   fun newNames curPath oldNames ul => removeLoop_ops newNames curPath oldNames ul⟩

/-!
Part B: the interaction layer of `src/index.ts` (preview/commit handling of
the `fileOpened` signal, the monaco model registry) together with the click
disambiguation timer of `widgets/DirectoryViewerWidget.ts` and the
`ContentWidget` lifecycle.
-/

/-- A `FileSystemFileHandle` capability.  `hid` models JavaScript object
identity, so the source's `handle1 === handle2` is equality of the embedded
records; `name` is the handle's base name (the File System Access API
exposes no path on a file handle). -/
structure FileHandleM where
  hid : Nat
  name : String
deriving DecidableEq, Repr

/-- One click on a file entry `li` of the directory tree. -/
structure ClickEv where
  path : String
  h : FileHandleM
  time : Nat
deriving DecidableEq, Repr

/-- One armed `window.setTimeout` of a file entry's click handler: the
closure variable `clickTimer` of the entry at `path`, due to fire at
`fire = clickTime + 250`. -/
structure PendingTimer where
  path : String
  h : FileHandleM
  fire : Nat
deriving DecidableEq, Repr

/-- One emission of the `_fileOpened` signal:
`{ path, handle, preview }`. -/
structure FileOpenEv where
  path : String
  h : FileHandleM
  preview : Bool
deriving DecidableEq, Repr

/-- Run every armed timer that is due at time `t`: emit its preview event
and drop it from the pending set.  All timers use the same 250 ms delay, so
arming order equals due-time order, and the single-threaded event loop runs
a callback scheduled for `s ≤ t` before it processes a click happening at
`t`. -/
def flushDue (pending : List PendingTimer) (t : Nat) :
    List FileOpenEv × List PendingTimer :=
  ((pending.filter (fun q => decide (q.fire ≤ t))).map
      (fun q => FileOpenEv.mk q.path q.h true),
   pending.filter (fun q => !(decide (q.fire ≤ t))))

/-- The file-entry click handler of `widgets/DirectoryViewerWidget.ts`
(lines 179–197), run over a chronological click timeline and observed at
`tEnd`: a click while the entry's `clickTimer` is armed clears the timer
and emits a commit (`preview: false`) event; a click on an idle entry arms
a 250 ms timer whose callback emits a preview (`preview: true`) event and
disarms itself.  Each entry (`li`) owns an independent `clickTimer`
closure variable, keyed here by `path`. -/
def runClicks (pending : List PendingTimer) (evs : List ClickEv) (tEnd : Nat) :
    List FileOpenEv :=
  match evs with
  | [] => (flushDue pending tEnd).1
  | ev :: rest =>
    let fd := flushDue pending ev.time
    if fd.2.any (fun q => decide (q.path = ev.path)) then
      fd.1 ++ FileOpenEv.mk ev.path ev.h false ::
        runClicks (fd.2.filter (fun q => !(decide (q.path = ev.path)))) rest tEnd
    else
      fd.1 ++ runClicks (fd.2 ++ [PendingTimer.mk ev.path ev.h (ev.time + 250)]) rest tEnd

/-- A monaco text model as held by the editor's registry: `mid` models the
object reference, `uri` the key it is registered under, `disposed` the
`isDisposed()` flag (a disposed model is no longer returned by
`getModel`). -/
structure ModelRef where
  mid : Nat
  uri : String
  disposed : Bool
deriving DecidableEq, Repr

/-- Dock widget kinds: `ContentWidget` or `PDFViewerWidget`. -/
inductive WKind where
  | content
  | pdf
deriving DecidableEq, Repr

/-- A dock widget.  `wid` models object identity, `fh` the `fileHandle`
field, `labelName` the constructor's `name` argument (`title.label`),
`isPreview` the preview marker, `modelId` the model the editor was bound to
by `onAfterAttach` (`none` before attach — in this variant the editor is
never torn down afterwards), `inDock` whether the widget is currently in
the dock panel (`close()` clears it without disposing), `disposedW` whether
`dispose()` has run. -/
structure ViewW where
  wid : Nat
  kind : WKind
  fh : Option FileHandleM
  labelName : String
  isPreview : Bool
  modelId : Option Nat
  inDock : Bool
  disposedW : Bool
deriving DecidableEq, Repr

/-- The whole interactive state: the fresh-identity allocator, the monaco
model registry, every widget ever constructed (in construction order; the
dock's current content is the `inDock` ones), and the
`ContentWidget.previewWidget` static (the preview slot). -/
structure WState where
  nextId : Nat
  models : List ModelRef
  widgets : List ViewW
  previewW : Option Nat
deriving DecidableEq, Repr

/-- Observable steps taken by the handler, in execution order. -/
inductive Action where
  | loadFile (hid : Nat)
  | createModel (uri : String)
  | disposeModel (mid : Nat)
  | closeView (wid : Nat)
  | createView (wid : Nat)
  | activateView (wid : Nat)
  | promoteView (wid : Nat)
deriving DecidableEq, Repr

/-- `monaco.editor.getModel(uri)`: the registered live model under `uri`,
if any. -/
def getModel (models : List ModelRef) (uri : String) : Option ModelRef :=
  models.find? (fun m => decide (m.uri = uri) && !m.disposed)

/-- `monaco.editor.createModel(content, language, uri)`: register a fresh
model under `uri`. -/
def createModel (st : WState) (uri : String) : ModelRef × WState :=
  (ModelRef.mk st.nextId uri false,
   { st with nextId := st.nextId + 1,
             models := st.models ++ [ModelRef.mk st.nextId uri false] })

/-- `model.dispose()`. -/
def disposeModelIn (models : List ModelRef) (mid : Nat) : List ModelRef :=
  models.map (fun m => if m.mid = mid then { m with disposed := true } else m)

/-- Whether the model `mid` is registered and not disposed. -/
def modelLive (models : List ModelRef) (mid : Nat) : Bool :=
  models.any (fun m => decide (m.mid = mid) && !m.disposed)

/-- `monaco.Uri.parse('file:///' + handle.name)` — the canonical document
key, built from the handle's base name only (src/index.ts line 952 and
`ContentWidget.onAfterAttach`). -/
def uriOf (h : FileHandleM) : String := "file:///" ++ h.name

/-- Result of the model lookup/creation prefix of the `fileOpened`
handler. -/
structure GOCResult where
  mid : Nat
  st : WState
  acts : List Action
  loaderRan : Bool
deriving DecidableEq, Repr

/-- Lines 952–958 of the `fileOpened` handler: look the handle's uri up in
the registry; when absent, read the file (`handle.getFile()` /
`file.text()` — the only place the content loader runs) and register a
model under the uri with that content. -/
def getOrCreateModel (st : WState) (h : FileHandleM) : GOCResult :=
  match getModel st.models (uriOf h) with
  | some m => GOCResult.mk m.mid st [] false
  | none =>
    let r := createModel st (uriOf h)
    GOCResult.mk r.1.mid r.2 [Action.loadFile h.hid, Action.createModel (uriOf h)] true

/-- `widget.getFileHandle()` etc. need the record behind a stored widget
reference. -/
def widgetOf (st : WState) (wid : Nat) : Option ViewW :=
  st.widgets.find? (fun w => decide (w.wid = wid))

/-- `ContentWidget.onAfterAttach`: bind the editor to the model registered
under `'file:///' + (fileHandle ? fileHandle.name : title.label)`, creating
it from `initialContent` (no file read) when absent. -/
def onAfterAttach (st : WState) (w : ViewW) : WState × ViewW × List Action :=
  let uri := "file:///" ++ (match w.fh with | some h => h.name | none => w.labelName)
  match getModel st.models uri with
  | some m => (st, { w with modelId := some m.mid }, [])
  | none =>
    let r := createModel st uri
    (r.2, { w with modelId := some r.1.mid }, [Action.createModel uri])

/-- `new ContentWidget(name, '', fileHandle, isPreview)`. -/
def newContentWidget (st : WState) (name : String) (fh : Option FileHandleM)
    (isPreview : Bool) : ViewW × WState :=
  (ViewW.mk st.nextId WKind.content fh name isPreview none false false,
   { st with nextId := st.nextId + 1 })

/-- `dock.addWidget(w); dock.activateWidget(w)`: adding attaches the widget
(running `onAfterAttach`), then it is activated. -/
def addAndActivate (st : WState) (w : ViewW) : WState × List Action :=
  let r := onAfterAttach st w
  ({ r.1 with widgets := r.1.widgets ++ [{ r.2.1 with inDock := true }] },
   Action.createView w.wid :: r.2.2 ++ [Action.activateView w.wid])

/-- `widget.close()`: the default `onCloseRequest` removes the widget from
its parent dock; it does not dispose the widget, its editor or its
model. -/
def closeView (st : WState) (wid : Nat) : WState :=
  { st with widgets :=
      st.widgets.map (fun w => if w.wid = wid then { w with inDock := false } else w) }

/-- `findWidgetByFileHandle(handle)` (src/index.ts 990–999): the first
`ContentWidget` currently in the dock whose `fileHandle === handle` and
which is not in preview mode. -/
def findWidgetByFileHandle (st : WState) (h : FileHandleM) : Option ViewW :=
  st.widgets.find? (fun w =>
    decide (w.kind = WKind.content) && w.inDock &&
    decide (w.fh = some h) && !w.isPreview)

/-- `ContentWidget.convertToPermanent()`: when the widget is in preview
mode, clear the marker and, if the static preview slot points at it, empty
the slot. -/
def convertToPermanent (st : WState) (wid : Nat) : WState :=
  match widgetOf st wid with
  | some w =>
    if w.isPreview then
      { st with
        widgets := st.widgets.map (fun w' =>
          if w'.wid = wid then { w' with isPreview := false } else w'),
        previewW := if st.previewW = some wid then none else st.previewW }
    else st
  | none => st

/-- `String.prototype.split('.')` on the name's character list. -/
def splitDots : List Char → List (List Char)
  | [] => [[]]
  | c :: rest =>
    let r := splitDots rest
    if c = '.' then [] :: r
    else
      match r with
      | [] => [[c]]
      | g :: gs => (c :: g) :: gs

/-- `handle.name.split('.').pop()?.toLowerCase() === 'pdf'`. -/
def isPdfName (name : String) : Bool :=
  match (splitDots name.data).getLast? with
  | some ext => decide (ext.map Char.toLower = ['p', 'd', 'f'])
  | none => false

/-- Create, register and activate a fresh preview `ContentWidget` for the
handle and store it in the preview slot (handler lines 967–970: the slot is
assigned before `dock.addWidget` attaches the widget). -/
def createPreviewFor (st : WState) (h : FileHandleM) : WState × List Action :=
  let r := newContentWidget st h.name (some h) true
  let r2 := addAndActivate { r.2 with previewW := some r.1.wid } r.1
  (r2.1, r2.2)

/-- Create, register and activate a fresh permanent `ContentWidget` for the
handle (handler lines 979–981; the preview slot is untouched). -/
def createPermanentFor (st : WState) (h : FileHandleM) : WState × List Action :=
  let r := newContentWidget st h.name (some h) false
  let r2 := addAndActivate r.2 r.1
  (r2.1, r2.2)

/-- The `directoryViewer.fileOpened` handler (src/index.ts 944–988): pdf
names open a `PDFViewerWidget`; otherwise the model is looked up or created
(lines 952–958), then the preview branch (959–970) or the commit branch
(971–983) runs. -/
def fileOpenedStep (st : WState) (ev : FileOpenEv) : WState × List Action :=
  if isPdfName ev.h.name then
    let w := ViewW.mk st.nextId WKind.pdf (some ev.h) ev.h.name false none true false
    ({ st with nextId := st.nextId + 1, widgets := st.widgets ++ [w] },
     [Action.createView w.wid, Action.activateView w.wid])
  else
    let g := getOrCreateModel st ev.h
    if ev.preview then
      match g.st.previewW with
      | some pw =>
        match widgetOf g.st pw with
        | some pwrec =>
          if pwrec.fh = some ev.h then
            (g.st, g.acts ++ [Action.activateView pw])
          else
            let r := createPreviewFor (closeView g.st pw) ev.h
            (r.1, g.acts ++ Action.closeView pw :: r.2)
        | none =>
          let r := createPreviewFor g.st ev.h
          (r.1, g.acts ++ r.2)
      | none =>
        let r := createPreviewFor g.st ev.h
        (r.1, g.acts ++ r.2)
    else
      match findWidgetByFileHandle g.st ev.h with
      | some w => (g.st, g.acts ++ [Action.activateView w.wid])
      | none =>
        match g.st.previewW with
        | some pw =>
          match widgetOf g.st pw with
          | some pwrec =>
            if pwrec.fh = some ev.h then
              ({ convertToPermanent g.st pw with previewW := none },
               g.acts ++ [Action.promoteView pw])
            else
              let r := createPermanentFor g.st ev.h
              (r.1, g.acts ++ r.2)
          | none =>
            let r := createPermanentFor g.st ev.h
            (r.1, g.acts ++ r.2)
        | none =>
          let r := createPermanentFor g.st ev.h
          (r.1, g.acts ++ r.2)

/-- `ContentWidget.dispose()` (the widget variant of src/index.ts /
`widgets/ContentWidget.ts`): clear the static slots pointing at the widget,
then — when the editor exists, which in this variant means the widget was
attached — dispose the editor's model unless it is already disposed, and
mark the widget disposed (a disposed widget also leaves the dock). -/
def disposeView (st : WState) (wid : Nat) : WState × List Action :=
  match widgetOf st wid with
  | none => (st, [])
  | some w =>
    let st1 := if st.previewW = some wid then { st with previewW := none } else st
    let mark := fun (ws : List ViewW) => ws.map (fun w' =>
      if w'.wid = wid then { w' with disposedW := true, inDock := false } else w')
    match w.modelId with
    | some m =>
      if modelLive st1.models m then
        ({ st1 with models := disposeModelIn st1.models m, widgets := mark st1.widgets },
         [Action.disposeModel m])
      else
        ({ st1 with widgets := mark st1.widgets }, [])
    | none => ({ st1 with widgets := mark st1.widgets }, [])

/-- The workspace before any file interaction: `main()` has attached the
Home `ContentWidget` (no file handle; its `onAfterAttach` registered the
`file:///Home` model). -/
def initState : WState :=
  (addAndActivate (newContentWidget (WState.mk 0 [] [] none) "Home" none false).2
    (newContentWidget (WState.mk 0 [] [] none) "Home" none false).1).1

/-- Fold the `fileOpened` handler over a list of emissions. -/
def runOpens (st : WState) (evs : List FileOpenEv) : WState :=
  match evs with
  | [] => st
  | ev :: rest => runOpens (fileOpenedStep st ev).1 rest

/-- The previews currently open in the dock. -/
def openPreviews (st : WState) : List ViewW :=
  st.widgets.filter (fun w => w.isPreview && w.inDock)

/-- C4.  Click disambiguation on one file entry: a single click at `t1`
followed by silence through `t1 + 250` emits exactly one preview event; a
second click on the same entry strictly before the 250 ms timeout emits
exactly one commit event and no preview event. -/
theorem click_disambiguation (path : String) (h : FileHandleM) (t1 t2 tEnd : Nat) :
    (t1 + 250 ≤ tEnd →
      runClicks [] [ClickEv.mk path h t1] tEnd = [FileOpenEv.mk path h true]) ∧
    (t1 ≤ t2 → t2 < t1 + 250 →
      runClicks [] [ClickEv.mk path h t1, ClickEv.mk path h t2] tEnd =
        [FileOpenEv.mk path h false]) := by
  constructor
  · intro hle
    simp [runClicks, flushDue, hle]
  · intro h12 h2
    have hnot : ¬ (t1 + 250 ≤ t2) := by omega
    simp [runClicks, flushDue, hnot]

/-- Witness for C4 at `t1 = 0`, `t2 = 100`, `tEnd = 300`. -/
theorem click_disambiguation_witness :
    (0 + 250 ≤ 300 ∧
      runClicks [] [ClickEv.mk "f" (FileHandleM.mk 0 "f") 0] 300 =
        [FileOpenEv.mk "f" (FileHandleM.mk 0 "f") true]) ∧
    (0 ≤ 100 ∧ 100 < 0 + 250 ∧
      runClicks [] [ClickEv.mk "f" (FileHandleM.mk 0 "f") 0,
        ClickEv.mk "f" (FileHandleM.mk 0 "f") 100] 300 =
        [FileOpenEv.mk "f" (FileHandleM.mk 0 "f") false]) :=
  ⟨⟨by decide, (click_disambiguation "f" (FileHandleM.mk 0 "f") 0 100 300).1 (by decide)⟩,
   ⟨by decide, by decide,
    (click_disambiguation "f" (FileHandleM.mk 0 "f") 0 100 300).2 (by decide) (by decide)⟩⟩

/-!
The lazily loaded virtual tree of `widgets/DirectoryViewerWidget.ts`, for
the expansion-failure claim.
-/

/-- A node of the lazy tree variant: files carry no children; a directory
carries its (insertion-ordered) `children` map and its `loaded` flag. -/
inductive TNode where
  | fileT (name : String)
  | dirT (name : String) (children : List (String × TNode)) (loaded : Bool)
deriving Repr

/-- `node.loaded` (files have no such flag; `false` is never consulted). -/
def TNode.loaded : TNode → Bool
  | .fileT _ => false
  | .dirT _ _ l => l

/-- `node.children` as an ordered association list. -/
def TNode.childrenT : TNode → List (String × TNode)
  | .fileT _ => []
  | .dirT _ cs _ => cs

/-- One entry reported by `handle.entries()`. -/
structure EnumEntry where
  name : String
  isDir : Bool
deriving DecidableEq, Repr

/-- Outcome of one `for await` iteration of `handle.entries()`: the entries
yielded before the iterator either finished (`failure = none`) or raised
(`failure = some err`, carrying e.g. `AccessDenied` / `IOError`). -/
structure EnumOutcome where
  yielded : List EnumEntry
  failure : Option String
deriving DecidableEq, Repr

/-- The child node built for one enumerated entry (a directory entry starts
unloaded with empty children). -/
def toChildNode (e : EnumEntry) : TNode :=
  if e.isDir then TNode.dirT e.name [] false else TNode.fileT e.name

/-- The lazy-load block of the directory click handler
(`widgets/DirectoryViewerWidget.ts` lines 138–161):
`if (!node.loaded) { node.loaded = true; node.children = new Map(); for await ... }`.
The `loaded` flag is raised and the children map cleared before the first
enumeration step; entries yielded before a failure are stored; a failure
propagates out of the (async) handler.  Returns the propagated outcome and
the node as the handler leaves it. -/
def expandLoad (node : TNode) (out : EnumOutcome) : Except String Unit × TNode :=
  match node with
  | TNode.fileT n => (Except.ok (), TNode.fileT n)
  | TNode.dirT n cs loaded =>
    if loaded then (Except.ok (), TNode.dirT n cs loaded)
    else
      let cs' := out.yielded.map (fun e => (e.name, toChildNode e))
      match out.failure with
      | some err => (Except.error err, TNode.dirT n cs' true)
      | none => (Except.ok (), TNode.dirT n cs' true)

/-- Counterexample for C5: expanding an unloaded directory whose enumeration
raises `AccessDenied` does propagate the error, but leaves `loaded = true`
— not `false` as the claim states — because the flag is raised before the
enumeration runs. -/
theorem expand_failure_counterexample :
    (expandLoad (TNode.dirT "d" [] false) (EnumOutcome.mk [] (some "AccessDenied"))).1 =
      Except.error "AccessDenied" ∧
    (expandLoad (TNode.dirT "d" [] false)
        (EnumOutcome.mk [] (some "AccessDenied"))).2.loaded = true ∧
    ¬ ((expandLoad (TNode.dirT "d" [] false)
        (EnumOutcome.mk [] (some "AccessDenied"))).2.loaded = false) := by
  refine ⟨rfl, rfl, ?_⟩
  intro hcontra
  simp [expandLoad, TNode.loaded] at hcontra

/-- C5 as amended: if the enumeration raises while expanding a not-yet
loaded directory, the failure propagates to the caller, but the node's
`loaded` flag — raised before the first enumeration step as the guard
against duplicate enumeration — remains `true`, its children hold exactly
the prefix yielded before the failure, and a subsequent expand is a no-op
(it does not retry the enumeration). -/
theorem expand_failure_amended (n : String) (cs : List (String × TNode))
    (out out2 : EnumOutcome) (err : String) (hf : out.failure = some err) :
    (expandLoad (TNode.dirT n cs false) out).1 = Except.error err ∧
    (expandLoad (TNode.dirT n cs false) out).2.loaded = true ∧
    (expandLoad (TNode.dirT n cs false) out).2.childrenT =
      out.yielded.map (fun e => (e.name, toChildNode e)) ∧
    expandLoad (expandLoad (TNode.dirT n cs false) out).2 out2 =
      (Except.ok (), (expandLoad (TNode.dirT n cs false) out).2) := by
  refine ⟨?_, ?_, ?_, ?_⟩ <;>
    simp [expandLoad, hf, TNode.loaded, TNode.childrenT]

/-- Witness for C5's amended claim at a concrete failing enumeration. -/
theorem expand_failure_amended_witness :
    (EnumOutcome.mk [EnumEntry.mk "x" false] (some "IOError")).failure = some "IOError" ∧
    ((expandLoad (TNode.dirT "d" [] false)
        (EnumOutcome.mk [EnumEntry.mk "x" false] (some "IOError"))).1 =
      Except.error "IOError" ∧
    (expandLoad (TNode.dirT "d" [] false)
        (EnumOutcome.mk [EnumEntry.mk "x" false] (some "IOError"))).2.loaded = true ∧
    (expandLoad (TNode.dirT "d" [] false)
        (EnumOutcome.mk [EnumEntry.mk "x" false] (some "IOError"))).2.childrenT =
      (EnumOutcome.mk [EnumEntry.mk "x" false] (some "IOError")).yielded.map
        (fun e => (e.name, toChildNode e)) ∧
    expandLoad (expandLoad (TNode.dirT "d" [] false)
        (EnumOutcome.mk [EnumEntry.mk "x" false] (some "IOError"))).2
        (EnumOutcome.mk [] none) =
      (Except.ok (), (expandLoad (TNode.dirT "d" [] false)
        (EnumOutcome.mk [EnumEntry.mk "x" false] (some "IOError"))).2)) :=
  ⟨rfl, expand_failure_amended "d" [] (EnumOutcome.mk [EnumEntry.mk "x" false]
    (some "IOError")) (EnumOutcome.mk [] none) "IOError" rfl⟩

/-! Registry lemmas shared by the model-sharing claims. -/

theorem find?_append_none {α : Type} (p : α → Bool) :
    ∀ (l1 l2 : List α), l1.find? p = none → (l1 ++ l2).find? p = l2.find? p := by
  intro l1
  induction l1 with
  | nil => intro l2 _; rfl
  | cons a l1 ih =>
    intro l2 h
    cases hp : p a with
    | true =>
      rw [List.find?_cons_of_pos _ hp] at h
      exact absurd h (by simp)
    | false =>
      have hp' : ¬ p a = true := by simp [hp]
      rw [List.find?_cons_of_neg _ hp'] at h
      rw [List.cons_append, List.find?_cons_of_neg _ hp']
      exact ih l2 h

theorem getModel_after_create (st : WState) (uri : String)
    (hn : getModel st.models uri = none) :
    getModel (createModel st uri).2.models uri = some (ModelRef.mk st.nextId uri false) := by
  unfold getModel createModel at *
  rw [find?_append_none _ _ _ hn]
  simp [List.find?]

/-- The loader (`handle.getFile()` / `file.text()`) actions in a trace. -/
def isLoadAction : Action → Bool
  | Action.loadFile _ => true
  | _ => false

/-- C6.  Model sharing: from any state, a second `getOrCreateModel` for the
same handle returns the very model id the first one returned, its loader
does not run, and the two calls together run the content loader at most
once. -/
theorem model_sharing (st : WState) (h : FileHandleM) :
    (getOrCreateModel (getOrCreateModel st h).st h).mid = (getOrCreateModel st h).mid ∧
    (getOrCreateModel (getOrCreateModel st h).st h).loaderRan = false ∧
    ((getOrCreateModel st h).acts ++
        (getOrCreateModel (getOrCreateModel st h).st h).acts).countP isLoadAction ≤ 1 := by
  cases hg : getModel st.models (uriOf h) with
  | some m =>
    refine ⟨?_, ?_, ?_⟩ <;> simp [getOrCreateModel, hg]
  | none =>
    have h2 := getModel_after_create st (uriOf h) hg
    simp only [createModel] at h2
    refine ⟨?_, ?_, ?_⟩ <;>
      simp [getOrCreateModel, hg, h2, createModel, List.countP_cons, isLoadAction]

/-- C10.  The canonical model key is built from the handle's base name
only: any two handles with equal `name` — in particular two distinct files
in different directories sharing a base name — map to the same
`file:///name` uri, so opening the second finds the first's model (the
loader does not run again) and a `ContentWidget` attached for the second
handle binds its editor to that same shared model. -/
theorem model_key_base_name (st : WState) (h1 h2 : FileHandleM)
    (hname : h1.name = h2.name) :
    uriOf h1 = uriOf h2 ∧
    (getOrCreateModel (getOrCreateModel st h1).st h2).mid = (getOrCreateModel st h1).mid ∧
    (getOrCreateModel (getOrCreateModel st h1).st h2).loaderRan = false ∧
    (∀ (wid : Nat) (nm : String) (prev : Bool),
      (onAfterAttach (getOrCreateModel st h1).st
          (ViewW.mk wid WKind.content (some h2) nm prev none false false)).2.1.modelId =
        some (getOrCreateModel st h1).mid) := by
  obtain ⟨i1, n1⟩ := h1
  obtain ⟨i2, n2⟩ := h2
  change n1 = n2 at hname
  subst hname
  cases hg : getModel st.models ("file:///" ++ n1) with
  | some m =>
    refine ⟨rfl, ?_, ?_, ?_⟩ <;>
      simp [getOrCreateModel, onAfterAttach, uriOf, hg]
  | none =>
    have h2m := getModel_after_create st ("file:///" ++ n1) hg
    simp only [createModel] at h2m
    refine ⟨rfl, ?_, ?_, ?_⟩ <;>
      simp [getOrCreateModel, onAfterAttach, uriOf, hg, h2m, createModel]

/-- Witness for C10: two distinct handles in different directories sharing
the base name `dup.txt`, opened from the empty workspace. -/
theorem model_key_base_name_witness :
    (FileHandleM.mk 1 "dup.txt").name = (FileHandleM.mk 2 "dup.txt").name ∧
    uriOf (FileHandleM.mk 1 "dup.txt") = uriOf (FileHandleM.mk 2 "dup.txt") ∧
    (getOrCreateModel (getOrCreateModel initState (FileHandleM.mk 1 "dup.txt")).st
        (FileHandleM.mk 2 "dup.txt")).mid =
      (getOrCreateModel initState (FileHandleM.mk 1 "dup.txt")).mid ∧
    (getOrCreateModel (getOrCreateModel initState (FileHandleM.mk 1 "dup.txt")).st
        (FileHandleM.mk 2 "dup.txt")).loaderRan = false ∧
    (onAfterAttach (getOrCreateModel initState (FileHandleM.mk 1 "dup.txt")).st
        (ViewW.mk 9 WKind.content (some (FileHandleM.mk 2 "dup.txt")) "dup.txt"
          false none false false)).2.1.modelId =
      some (getOrCreateModel initState (FileHandleM.mk 1 "dup.txt")).mid :=
  ⟨rfl,
   (model_key_base_name initState (FileHandleM.mk 1 "dup.txt")
     (FileHandleM.mk 2 "dup.txt") rfl).1,
   (model_key_base_name initState (FileHandleM.mk 1 "dup.txt")
     (FileHandleM.mk 2 "dup.txt") rfl).2.1,
   (model_key_base_name initState (FileHandleM.mk 1 "dup.txt")
     (FileHandleM.mk 2 "dup.txt") rfl).2.2.1,
   (model_key_base_name initState (FileHandleM.mk 1 "dup.txt")
     (FileHandleM.mk 2 "dup.txt") rfl).2.2.2 9 "dup.txt" false⟩

/-- Witness for C6 at a concrete handle and the initial workspace. -/
theorem model_sharing_witness :
    (getOrCreateModel (getOrCreateModel initState (FileHandleM.mk 3 "a.ts")).st
        (FileHandleM.mk 3 "a.ts")).mid =
      (getOrCreateModel initState (FileHandleM.mk 3 "a.ts")).mid ∧
    (getOrCreateModel (getOrCreateModel initState (FileHandleM.mk 3 "a.ts")).st
        (FileHandleM.mk 3 "a.ts")).loaderRan = false ∧
    ((getOrCreateModel initState (FileHandleM.mk 3 "a.ts")).acts ++
        (getOrCreateModel (getOrCreateModel initState (FileHandleM.mk 3 "a.ts")).st
          (FileHandleM.mk 3 "a.ts")).acts).countP isLoadAction ≤ 1 :=
  model_sharing initState (FileHandleM.mk 3 "a.ts")


/-- Invariant: widget identities are below the allocator and pairwise
distinct, and every preview widget currently in the dock is the one the
static preview slot points at. -/
def PreviewInv (st : WState) : Prop :=
  (∀ w ∈ st.widgets, w.wid < st.nextId) ∧
  (st.widgets.map ViewW.wid).Nodup ∧
  (∀ w ∈ st.widgets, w.isPreview = true → w.inDock = true → st.previewW = some w.wid)

theorem previewInv_init : PreviewInv initState := by
  refine ⟨?_, ?_, ?_⟩ <;> decide

theorem previewInv_le_one (st : WState) (hI : PreviewInv st) :
    (openPreviews st).length ≤ 1 := by
  obtain ⟨-, hnd, hslot⟩ := hI
  have hsub : (openPreviews st).Sublist st.widgets := List.filter_sublist _
  have hnd2 : ((openPreviews st).map ViewW.wid).Nodup := (hsub.map ViewW.wid).nodup hnd
  match hop : openPreviews st with
  | [] => simp
  | [w] => simp
  | w1 :: w2 :: rest =>
    exfalso
    have h1 : w1 ∈ openPreviews st := by rw [hop]; exact List.mem_cons_self _ _
    have h2 : w2 ∈ openPreviews st := by rw [hop]; simp
    have hm1 := List.mem_filter.mp h1
    have hm2 := List.mem_filter.mp h2
    simp only [Bool.and_eq_true] at hm1 hm2
    have e1 := hslot w1 hm1.1 hm1.2.1 hm1.2.2
    have e2 := hslot w2 hm2.1 hm2.2.1 hm2.2.2
    have heq : w1.wid = w2.wid := by
      have h12 := e1.symm.trans e2
      injection h12
    rw [hop] at hnd2
    simp [heq] at hnd2

theorem goc_effects (st : WState) (h : FileHandleM) :
    (getOrCreateModel st h).st.widgets = st.widgets ∧
    (getOrCreateModel st h).st.previewW = st.previewW ∧
    st.nextId ≤ (getOrCreateModel st h).st.nextId := by
  cases hg : getModel st.models (uriOf h) with
  | some m => simp [getOrCreateModel, hg]
  | none => simp [getOrCreateModel, hg, createModel]

theorem createPreviewFor_facts (st : WState) (h : FileHandleM) :
    ∃ w1 : ViewW,
      (createPreviewFor st h).1.widgets = st.widgets ++ [w1] ∧
      w1.wid = st.nextId ∧ w1.isPreview = true ∧
      (createPreviewFor st h).1.previewW = some st.nextId ∧
      st.nextId < (createPreviewFor st h).1.nextId := by
  unfold createPreviewFor newContentWidget addAndActivate onAfterAttach
  cases hg : getModel st.models ("file:///" ++ h.name) with
  | some m =>
    refine ⟨ViewW.mk st.nextId WKind.content (some h) h.name true (some m.mid) true false,
      ?_, rfl, rfl, ?_, ?_⟩ <;> simp [hg]
  | none =>
    refine ⟨ViewW.mk st.nextId WKind.content (some h) h.name true (some (st.nextId + 1)) true false,
      ?_, rfl, rfl, ?_, ?_⟩ <;> simp [hg, createModel] <;> omega

theorem createPreviewFor_inv (st : WState) (h : FileHandleM)
    (hI1 : ∀ w ∈ st.widgets, w.wid < st.nextId)
    (hnd : (st.widgets.map ViewW.wid).Nodup)
    (hnop : ∀ w ∈ st.widgets, w.isPreview = true → w.inDock = true → False) :
    PreviewInv (createPreviewFor st h).1 := by
  obtain ⟨w1, hw, hwid, hprev, hslotEq, hlt⟩ := createPreviewFor_facts st h
  refine ⟨?_, ?_, ?_⟩
  · intro w hmem
    rw [hw] at hmem
    rcases List.mem_append.mp hmem with hold | hnew
    · exact lt_trans (hI1 w hold) hlt
    · simp at hnew
      subst hnew
      rw [hwid]
      exact hlt
  · rw [hw, List.map_append, List.nodup_append]
    refine ⟨hnd, by simp, ?_⟩
    intro x hx hy
    simp [hwid] at hy
    obtain ⟨w, hwm, hwx⟩ := List.mem_map.mp hx
    have := hI1 w hwm
    omega
  · intro w hmem hp hd
    rw [hw] at hmem
    rcases List.mem_append.mp hmem with hold | hnew
    · exact absurd (hnop w hold hp hd) not_false
    · simp at hnew
      subst hnew
      rw [hslotEq, hwid]

theorem closeView_facts (st : WState) (wid : Nat) :
    (closeView st wid).widgets.map ViewW.wid = st.widgets.map ViewW.wid ∧
    (closeView st wid).nextId = st.nextId ∧
    (closeView st wid).previewW = st.previewW ∧
    (∀ w' ∈ (closeView st wid).widgets, ∃ w ∈ st.widgets,
      w'.wid = w.wid ∧ w'.isPreview = w.isPreview ∧
      (w'.inDock = true → (w.inDock = true ∧ ¬ w.wid = wid))) := by
  refine ⟨?_, rfl, rfl, ?_⟩
  · simp only [closeView, List.map_map]
    apply List.map_congr_left
    intro w _
    by_cases hwd : w.wid = wid <;> simp [hwd]
  · intro w' hmem
    simp only [closeView] at hmem
    obtain ⟨w, hwm, hfw⟩ := List.mem_map.mp hmem
    by_cases hwd : w.wid = wid
    · refine ⟨w, hwm, ?_, ?_, ?_⟩ <;> simp [hwd] at hfw <;> subst hfw <;> simp [hwd]
    · refine ⟨w, hwm, ?_, ?_, ?_⟩ <;> simp [hwd] at hfw <;> subst hfw <;> simp [hwd]


theorem widgetOf_none_no_mem (st : WState) (wid : Nat)
    (hn : widgetOf st wid = none) : ∀ w ∈ st.widgets, ¬ w.wid = wid := by
  intro w hw
  have := List.find?_eq_none.mp hn w hw
  simpa using this

theorem fileOpenedStep_preview_inv (st : WState) (p : String) (h : FileHandleM)
    (hI : PreviewInv st) : PreviewInv (fileOpenedStep st (FileOpenEv.mk p h true)).1 := by
  obtain ⟨hI1, hnd, hslot⟩ := hI
  by_cases hpdf : isPdfName h.name = true
  · simp only [fileOpenedStep, hpdf, if_true]
    refine ⟨?_, ?_, ?_⟩
    · intro w hmem
      simp only [List.mem_append, List.mem_singleton] at hmem
      rcases hmem with hold | hnew
      · exact lt_trans (hI1 w hold) (Nat.lt_succ_self st.nextId)
      · subst hnew
        exact Nat.lt_succ_self st.nextId
    · simp only [List.map_append, List.nodup_append]
      refine ⟨hnd, by simp, ?_⟩
      intro x hx hy
      simp at hy
      obtain ⟨w, hwm, hwx⟩ := List.mem_map.mp hx
      have := hI1 w hwm
      omega
    · intro w hmem hp hd
      simp only [List.mem_append, List.mem_singleton] at hmem
      rcases hmem with hold | hnew
      · exact hslot w hold hp hd
      · subst hnew
        simp at hp
  · have hge := goc_effects st h
    cases hpw : (getOrCreateModel st h).st.previewW with
    | none =>
      have hnop : ∀ w ∈ (getOrCreateModel st h).st.widgets,
          w.isPreview = true → w.inDock = true → False := by
        intro w hw hp hd
        rw [hge.1] at hw
        have hs := hslot w hw hp hd
        rw [← hge.2.1, hpw] at hs
        exact Option.noConfusion hs
      have hres := createPreviewFor_inv (getOrCreateModel st h).st h
        (fun w hw => lt_of_lt_of_le (hI1 w (hge.1 ▸ hw)) hge.2.2)
        (by rw [hge.1]; exact hnd) hnop
      simpa only [fileOpenedStep, hpdf, hpw] using hres
    | some pw =>
      cases hwo : widgetOf (getOrCreateModel st h).st pw with
      | none =>
        have hnop : ∀ w ∈ (getOrCreateModel st h).st.widgets,
            w.isPreview = true → w.inDock = true → False := by
          intro w hw hp hd
          have hs := hslot w (hge.1 ▸ hw) hp hd
          rw [← hge.2.1, hpw] at hs
          have hwidq : pw = w.wid := by injection hs
          exact widgetOf_none_no_mem _ pw hwo w hw hwidq.symm
        have hres := createPreviewFor_inv (getOrCreateModel st h).st h
          (fun w hw => lt_of_lt_of_le (hI1 w (hge.1 ▸ hw)) hge.2.2)
          (by rw [hge.1]; exact hnd) hnop
        simpa only [fileOpenedStep, hpdf, hpw, hwo] using hres
      | some pwrec =>
        by_cases hsame : pwrec.fh = some h
        · have hres : PreviewInv (getOrCreateModel st h).st := by
            refine ⟨?_, ?_, ?_⟩
            · intro w hw
              rw [hge.1] at hw
              exact lt_of_lt_of_le (hI1 w hw) hge.2.2
            · rw [hge.1]
              exact hnd
            · intro w hw hp hd
              rw [hge.2.1]
              rw [hge.1] at hw
              exact hslot w hw hp hd
          simpa only [fileOpenedStep, hpdf, hpw, hwo, hsame] using hres
        · have hcf := closeView_facts (getOrCreateModel st h).st pw
          have hnop' : ∀ w' ∈ (closeView (getOrCreateModel st h).st pw).widgets,
              w'.isPreview = true → w'.inDock = true → False := by
            intro w' hw' hp hd
            obtain ⟨w, hwm, hwidq, hprevq, hdockq⟩ := hcf.2.2.2 w' hw'
            obtain ⟨hdock, hnepw⟩ := hdockq hd
            rw [hge.1] at hwm
            have hs := hslot w hwm (by rw [← hprevq]; exact hp) hdock
            rw [← hge.2.1, hpw] at hs
            have hpweq : pw = w.wid := by injection hs
            exact hnepw hpweq.symm
          have hI1' : ∀ w' ∈ (closeView (getOrCreateModel st h).st pw).widgets,
              w'.wid < (closeView (getOrCreateModel st h).st pw).nextId := by
            intro w' hw'
            obtain ⟨w, hwm, hwidq, -, -⟩ := hcf.2.2.2 w' hw'
            rw [hge.1] at hwm
            rw [hwidq, hcf.2.1]
            exact lt_of_lt_of_le (hI1 w hwm) hge.2.2
          have hnd' : ((closeView (getOrCreateModel st h).st pw).widgets.map ViewW.wid).Nodup := by
            rw [hcf.1, hge.1]
            exact hnd
          have hres := createPreviewFor_inv (closeView (getOrCreateModel st h).st pw) h
            hI1' hnd' hnop'
          simpa only [fileOpenedStep, hpdf, hpw, hwo, hsame] using hres

theorem runOpens_preview_inv :
    ∀ (evs : List FileOpenEv) (st : WState), PreviewInv st →
      (∀ e ∈ evs, e.preview = true) → PreviewInv (runOpens st evs) := by
  intro evs
  induction evs with
  | nil => intro st hI _; exact hI
  | cons e rest ih =>
    intro st hI hall
    obtain ⟨p, h, b⟩ := e
    have hb : b = true := hall (FileOpenEv.mk p h b) (List.mem_cons_self _ _)
    subst hb
    exact ih (fileOpenedStep st (FileOpenEv.mk p h true)).1
      (fileOpenedStep_preview_inv st p h ⟨hI.1, hI.2.1, hI.2.2⟩)
      (fun x hx => hall x (List.mem_cons_of_mem _ hx))


theorem goc_registers (st : WState) (h : FileHandleM) :
    ∃ m : ModelRef, getModel (getOrCreateModel st h).st.models (uriOf h) = some m := by
  cases hg : getModel st.models (uriOf h) with
  | some m => exact ⟨m, by simp [getOrCreateModel, hg]⟩
  | none =>
    refine ⟨ModelRef.mk st.nextId (uriOf h) false, ?_⟩
    simp only [getOrCreateModel, hg]
    exact getModel_after_create st (uriOf h) hg

theorem createPreviewFor_trace (st : WState) (h : FileHandleM) (m : ModelRef)
    (hm : getModel st.models (uriOf h) = some m) :
    (createPreviewFor st h).2 =
      [Action.createView st.nextId, Action.activateView st.nextId] := by
  unfold createPreviewFor newContentWidget addAndActivate onAfterAttach
  simp only [uriOf] at hm
  simp [hm]

theorem preview_replace_trace (st : WState) (p : String) (h : FileHandleM) (pw : Nat)
    (pwrec : ViewW) (hpdf : isPdfName h.name = false)
    (hpw : st.previewW = some pw) (hwo : widgetOf st pw = some pwrec)
    (hne : ¬ pwrec.fh = some h) :
    ∃ nw : Nat, (fileOpenedStep st (FileOpenEv.mk p h true)).2 =
      (getOrCreateModel st h).acts ++
        [Action.closeView pw, Action.createView nw, Action.activateView nw] := by
  have hge := goc_effects st h
  have hpw2 : (getOrCreateModel st h).st.previewW = some pw := by
    rw [hge.2.1]
    exact hpw
  have hwo2 : widgetOf (getOrCreateModel st h).st pw = some pwrec := by
    unfold widgetOf at hwo ⊢
    rw [hge.1]
    exact hwo
  obtain ⟨m, hm⟩ := goc_registers st h
  have hmc : getModel (closeView (getOrCreateModel st h).st pw).models (uriOf h) = some m := hm
  have htr := createPreviewFor_trace (closeView (getOrCreateModel st h).st pw) h m hmc
  refine ⟨(getOrCreateModel st h).st.nextId, ?_⟩
  have hnid : (closeView (getOrCreateModel st h).st pw).nextId =
      (getOrCreateModel st h).st.nextId := rfl
  rw [hnid] at htr
  simp [fileOpenedStep, hpdf, hpw2, hwo2, hne, htr]

/-- C3.  Preview singleton with replacement order: (1) after any finite
sequence of preview-intent `fileOpened` emissions starting from the initial
workspace, at most one preview view is open in the dock; (2) when the slot
holds a preview widget `pw` for one handle and a preview open arrives for a
different handle, the handler's action trace is exactly: the model
lookup/creation actions, then `closeView pw`, then the creation and
activation of the fresh preview view — the old preview's view is closed
before the new one is created. -/
theorem preview_singleton :
    (∀ evs : List FileOpenEv, (∀ e ∈ evs, e.preview = true) →
      (openPreviews (runOpens initState evs)).length ≤ 1) ∧
    (∀ (st : WState) (p : String) (h : FileHandleM) (pw : Nat) (pwrec : ViewW),
      isPdfName h.name = false → st.previewW = some pw →
      widgetOf st pw = some pwrec → ¬ pwrec.fh = some h →
      ∃ nw : Nat, (fileOpenedStep st (FileOpenEv.mk p h true)).2 =
        (getOrCreateModel st h).acts ++
          [Action.closeView pw, Action.createView nw, Action.activateView nw]) :=
  ⟨fun evs hall =>
    previewInv_le_one _ (runOpens_preview_inv evs initState previewInv_init hall),
   fun st p h pw pwrec hpdf hpw hwo hne =>
    preview_replace_trace st p h pw pwrec hpdf hpw hwo hne⟩

/-- Witness for C3: two preview opens of different files from the initial
workspace, and a concrete replacement step. -/
theorem preview_singleton_witness :
    ((∀ e ∈ [FileOpenEv.mk "a" (FileHandleM.mk 7 "a.ts") true,
        FileOpenEv.mk "b" (FileHandleM.mk 8 "b.ts") true], e.preview = true) ∧
      (openPreviews (runOpens initState
        [FileOpenEv.mk "a" (FileHandleM.mk 7 "a.ts") true,
         FileOpenEv.mk "b" (FileHandleM.mk 8 "b.ts") true])).length ≤ 1) ∧
    (isPdfName (FileHandleM.mk 6 "y.ts").name = false ∧
      (WState.mk 3 [] [ViewW.mk 2 WKind.content (some (FileHandleM.mk 5 "x.ts")) "x.ts"
        true none true false] (some 2)).previewW = some 2 ∧
      widgetOf (WState.mk 3 [] [ViewW.mk 2 WKind.content (some (FileHandleM.mk 5 "x.ts")) "x.ts"
        true none true false] (some 2)) 2 =
        some (ViewW.mk 2 WKind.content (some (FileHandleM.mk 5 "x.ts")) "x.ts"
          true none true false) ∧
      ¬ (ViewW.mk 2 WKind.content (some (FileHandleM.mk 5 "x.ts")) "x.ts"
          true none true false).fh = some (FileHandleM.mk 6 "y.ts") ∧
      ∃ nw : Nat,
        (fileOpenedStep (WState.mk 3 [] [ViewW.mk 2 WKind.content
            (some (FileHandleM.mk 5 "x.ts")) "x.ts" true none true false] (some 2))
          (FileOpenEv.mk "p" (FileHandleM.mk 6 "y.ts") true)).2 =
        (getOrCreateModel (WState.mk 3 [] [ViewW.mk 2 WKind.content
            (some (FileHandleM.mk 5 "x.ts")) "x.ts" true none true false] (some 2))
          (FileHandleM.mk 6 "y.ts")).acts ++
          [Action.closeView 2, Action.createView nw, Action.activateView nw]) :=
  ⟨⟨by decide, preview_singleton.1
      [FileOpenEv.mk "a" (FileHandleM.mk 7 "a.ts") true,
       FileOpenEv.mk "b" (FileHandleM.mk 8 "b.ts") true] (by decide)⟩,
   by decide, by decide, by decide, by decide,
   preview_singleton.2 (WState.mk 3 [] [ViewW.mk 2 WKind.content
      (some (FileHandleM.mk 5 "x.ts")) "x.ts" true none true false] (some 2))
     "p" (FileHandleM.mk 6 "y.ts") 2
     (ViewW.mk 2 WKind.content (some (FileHandleM.mk 5 "x.ts")) "x.ts" true none true false)
     (by decide) (by decide) (by decide) (by decide)⟩


/-- At most one live (registered, undisposed) model per document key — the
uniqueness half of the model-cache invariant. -/
def ModelUniq (models : List ModelRef) : Prop :=
  ∀ uri : String,
    models.countP (fun m => decide (m.uri = uri) && !m.disposed) ≤ 1

theorem modelLive_dispose (models : List ModelRef) (m : Nat) :
    modelLive (disposeModelIn models m) m = false := by
  induction models with
  | nil => rfl
  | cons a l ih =>
    by_cases hm : a.mid = m <;>
      simp [disposeModelIn, modelLive, hm] at ih ⊢ <;> simpa using ih

theorem modelUniq_createModel (st : WState) (uri : String)
    (hn : getModel st.models uri = none) (hU : ModelUniq st.models) :
    ModelUniq (createModel st uri).2.models := by
  intro u
  simp only [createModel, List.countP_append]
  by_cases hu : u = uri
  · subst hu
    have hz : st.models.countP (fun m => decide (m.uri = u) && !m.disposed) = 0 := by
      rw [List.countP_eq_zero]
      intro a ha
      have := List.find?_eq_none.mp hn a ha
      simpa using this
    simp [hz, List.countP_cons]
  · have hu' : uri ≠ u := fun he => hu he.symm
    have hz : List.countP (fun m => decide (m.uri = u) && !m.disposed)
        [ModelRef.mk st.nextId uri false] = 0 := by
      simp [List.countP_cons, hu']
    rw [hz]
    simpa using hU u

theorem countP_dispose_le (mid : Nat) (uri : String) :
    ∀ models : List ModelRef,
      (disposeModelIn models mid).countP (fun m => decide (m.uri = uri) && !m.disposed) ≤
        models.countP (fun m => decide (m.uri = uri) && !m.disposed) := by
  intro models
  induction models with
  | nil => simp [disposeModelIn]
  | cons a l ih =>
    have hmap : disposeModelIn (a :: l) mid =
        (if a.mid = mid then { a with disposed := true } else a) :: disposeModelIn l mid := rfl
    rw [hmap, List.countP_cons, List.countP_cons]
    by_cases hm : a.mid = mid
    · rw [if_pos hm]
      have hh : (decide (({ a with disposed := true } : ModelRef).uri = uri) &&
          !({ a with disposed := true } : ModelRef).disposed) = false := by simp
      simp only [hh, Bool.false_eq_true, if_false]
      generalize (if (decide (a.uri = uri) && !a.disposed) = true then 1 else 0) = k
      omega
    · rw [if_neg hm]
      generalize (if (decide (a.uri = uri) && !a.disposed) = true then 1 else 0) = k
      omega

/-- C7 as amended: `ContentWidget.dispose` disposes the shared model as soon
as any attached view of the key is disposed — the model dies with the first
disposed view, not the last: (1) disposing a view whose editor holds a live
model kills that model, while every widget record other than the disposed
one survives unchanged (in particular any still-open view of the same key);
(2)–(4) the uniqueness half of the claim is an invariant: model creation in
the handler and in `onAfterAttach` happens only when no live model is
registered for the uri, and disposal only removes liveness, so every
reachable registry holds at most one live model per key. -/
theorem model_lifecycle_amended :
    (∀ (st : WState) (wid : Nat) (w : ViewW) (m : Nat),
      widgetOf st wid = some w → w.modelId = some m → modelLive st.models m = true →
      modelLive (disposeView st wid).1.models m = false ∧
      (∀ w' ∈ st.widgets, ¬ w'.wid = wid → w' ∈ (disposeView st wid).1.widgets)) ∧
    (∀ (st : WState) (h : FileHandleM),
      ModelUniq st.models → ModelUniq (getOrCreateModel st h).st.models) ∧
    (∀ (st : WState) (w : ViewW),
      ModelUniq st.models → ModelUniq (onAfterAttach st w).1.models) ∧
    (∀ (models : List ModelRef) (mid : Nat),
      ModelUniq models → ModelUniq (disposeModelIn models mid)) := by
  refine ⟨?_, ?_, ?_, ?_⟩
  · intro st wid w m hw hm hlive
    constructor
    · by_cases hpv : st.previewW = some wid <;>
        simp [disposeView, hw, hm, hpv, hlive, modelLive_dispose]
    · intro w' hw' hne
      have hfix : ∀ ws : List ViewW, w' ∈ ws →
          w' ∈ ws.map (fun x =>
            if x.wid = wid then { x with disposedW := true, inDock := false } else x) :=
        fun ws hmem => List.mem_map.mpr ⟨w', hmem, by rw [if_neg hne]⟩
      by_cases hpv : st.previewW = some wid
      · simp only [disposeView, hw, hm, hpv, if_pos rfl, hlive, if_true]
        exact hfix st.widgets hw'
      · simp only [disposeView, hw, hm, if_neg hpv, hlive, if_true]
        exact hfix st.widgets hw'
  · intro st h hU
    cases hg : getModel st.models (uriOf h) with
    | some m => simpa [getOrCreateModel, hg] using hU
    | none =>
      have := modelUniq_createModel st (uriOf h) hg hU
      simpa [getOrCreateModel, hg] using this
  · intro st w hU
    cases hg : getModel st.models
        ("file:///" ++ (match w.fh with | some h => h.name | none => w.labelName)) with
    | some m => simpa [onAfterAttach, hg] using hU
    | none =>
      have := modelUniq_createModel st _ hg hU
      simpa [onAfterAttach, hg] using this
  · intro models mid hU uri
    exact le_trans (countP_dispose_le mid uri models) (hU uri)


/-- Counterexample for C7 at a reachable state: commit-opening `dup.txt`
and then preview-opening it yields two views in the dock (widgets `3` and
`4`) sharing live model `2`; disposing widget `3` — while widget `4` is
still open — disposes the shared model, contradicting the claim that
disposing one view while another view of the same key remains open does not
dispose the shared model. -/
theorem model_lifecycle_counterexample :
    ((fileOpenedStep (fileOpenedStep initState
        (FileOpenEv.mk "a/dup.txt" (FileHandleM.mk 7 "dup.txt") false)).1
        (FileOpenEv.mk "a/dup.txt" (FileHandleM.mk 7 "dup.txt") true)).1.widgets.filter
      (fun w => w.inDock && decide (w.modelId = some 2))).length = 2 ∧
    modelLive (fileOpenedStep (fileOpenedStep initState
        (FileOpenEv.mk "a/dup.txt" (FileHandleM.mk 7 "dup.txt") false)).1
        (FileOpenEv.mk "a/dup.txt" (FileHandleM.mk 7 "dup.txt") true)).1.models 2 = true ∧
    (openPreviews (disposeView (fileOpenedStep (fileOpenedStep initState
        (FileOpenEv.mk "a/dup.txt" (FileHandleM.mk 7 "dup.txt") false)).1
        (FileOpenEv.mk "a/dup.txt" (FileHandleM.mk 7 "dup.txt") true)).1 3).1).map
      ViewW.modelId = [some 2] ∧
    modelLive (disposeView (fileOpenedStep (fileOpenedStep initState
        (FileOpenEv.mk "a/dup.txt" (FileHandleM.mk 7 "dup.txt") false)).1
        (FileOpenEv.mk "a/dup.txt" (FileHandleM.mk 7 "dup.txt") true)).1 3).1.models 2 =
      false := by
  refine ⟨?_, ?_, ?_, ?_⟩ <;> decide

/-- Witness for C7's amended claim at a hand-built two-view state. -/
theorem model_lifecycle_amended_witness :
    widgetOf (WState.mk 5 [ModelRef.mk 2 "file:///x.ts" false]
        [ViewW.mk 3 WKind.content (some (FileHandleM.mk 7 "x.ts")) "x.ts" false (some 2) true false,
         ViewW.mk 4 WKind.content (some (FileHandleM.mk 7 "x.ts")) "x.ts" true (some 2) true false]
        none) 3 =
      some (ViewW.mk 3 WKind.content (some (FileHandleM.mk 7 "x.ts")) "x.ts"
        false (some 2) true false) ∧
    (ViewW.mk 3 WKind.content (some (FileHandleM.mk 7 "x.ts")) "x.ts"
      false (some 2) true false).modelId = some 2 ∧
    modelLive (WState.mk 5 [ModelRef.mk 2 "file:///x.ts" false]
        [ViewW.mk 3 WKind.content (some (FileHandleM.mk 7 "x.ts")) "x.ts" false (some 2) true false,
         ViewW.mk 4 WKind.content (some (FileHandleM.mk 7 "x.ts")) "x.ts" true (some 2) true false]
        none).models 2 = true ∧
    (modelLive (disposeView (WState.mk 5 [ModelRef.mk 2 "file:///x.ts" false]
        [ViewW.mk 3 WKind.content (some (FileHandleM.mk 7 "x.ts")) "x.ts" false (some 2) true false,
         ViewW.mk 4 WKind.content (some (FileHandleM.mk 7 "x.ts")) "x.ts" true (some 2) true false]
        none) 3).1.models 2 = false ∧
      (∀ w' ∈ (WState.mk 5 [ModelRef.mk 2 "file:///x.ts" false]
        [ViewW.mk 3 WKind.content (some (FileHandleM.mk 7 "x.ts")) "x.ts" false (some 2) true false,
         ViewW.mk 4 WKind.content (some (FileHandleM.mk 7 "x.ts")) "x.ts" true (some 2) true false]
        none).widgets, ¬ w'.wid = 3 →
        w' ∈ (disposeView (WState.mk 5 [ModelRef.mk 2 "file:///x.ts" false]
          [ViewW.mk 3 WKind.content (some (FileHandleM.mk 7 "x.ts")) "x.ts" false (some 2) true false,
           ViewW.mk 4 WKind.content (some (FileHandleM.mk 7 "x.ts")) "x.ts" true (some 2) true false]
          none) 3).1.widgets)) :=
  ⟨by decide, by decide, by decide,
   model_lifecycle_amended.1 (WState.mk 5 [ModelRef.mk 2 "file:///x.ts" false]
      [ViewW.mk 3 WKind.content (some (FileHandleM.mk 7 "x.ts")) "x.ts" false (some 2) true false,
       ViewW.mk 4 WKind.content (some (FileHandleM.mk 7 "x.ts")) "x.ts" true (some 2) true false]
      none) 3
     (ViewW.mk 3 WKind.content (some (FileHandleM.mk 7 "x.ts")) "x.ts" false (some 2) true false)
     2 (by decide) (by decide) (by decide)⟩

/-- Counterexample for C9: running the scenario — click `index.ts` at 0 ms,
silence past 250 ms, double-click `README.md` at 300/400 ms — through the
click disambiguator and the `fileOpened` handler yields exactly one preview
intent for `index.ts` and one commit intent for `README.md`, but the final
workspace still has the `index.ts` preview open: the commit branch for a
different file never closes the held preview, contradicting the claim that
the double-click closes the `index.ts` preview view. -/
theorem scenario_counterexample :
    runClicks [] [ClickEv.mk "root/src/index.ts" (FileHandleM.mk 1 "index.ts") 0,
        ClickEv.mk "root/README.md" (FileHandleM.mk 2 "README.md") 300,
        ClickEv.mk "root/README.md" (FileHandleM.mk 2 "README.md") 400] 1000 =
      [FileOpenEv.mk "root/src/index.ts" (FileHandleM.mk 1 "index.ts") true,
       FileOpenEv.mk "root/README.md" (FileHandleM.mk 2 "README.md") false] ∧
    (openPreviews (runOpens initState
        (runClicks [] [ClickEv.mk "root/src/index.ts" (FileHandleM.mk 1 "index.ts") 0,
          ClickEv.mk "root/README.md" (FileHandleM.mk 2 "README.md") 300,
          ClickEv.mk "root/README.md" (FileHandleM.mk 2 "README.md") 400] 1000))).map
      ViewW.fh = [some (FileHandleM.mk 1 "index.ts")] := by
  refine ⟨?_, ?_⟩ <;> decide

/-- C9 as amended: the scenario opens `README.md` as a permanent view, and
the `index.ts` preview view remains open and still occupies the preview
slot — only a preview-intent open of another file, a commit of the same
file, or an edit would evict it. -/
theorem scenario_amended :
    (runOpens initState
        (runClicks [] [ClickEv.mk "root/src/index.ts" (FileHandleM.mk 1 "index.ts") 0,
          ClickEv.mk "root/README.md" (FileHandleM.mk 2 "README.md") 300,
          ClickEv.mk "root/README.md" (FileHandleM.mk 2 "README.md") 400] 1000)).widgets.filter
      (fun w => decide (w.fh = some (FileHandleM.mk 2 "README.md")) && w.inDock &&
        !w.isPreview) =
      [ViewW.mk 5 WKind.content (some (FileHandleM.mk 2 "README.md")) "README.md"
        false (some 4) true false] ∧
    openPreviews (runOpens initState
        (runClicks [] [ClickEv.mk "root/src/index.ts" (FileHandleM.mk 1 "index.ts") 0,
          ClickEv.mk "root/README.md" (FileHandleM.mk 2 "README.md") 300,
          ClickEv.mk "root/README.md" (FileHandleM.mk 2 "README.md") 400] 1000)) =
      [ViewW.mk 3 WKind.content (some (FileHandleM.mk 1 "index.ts")) "index.ts"
        true (some 2) true false] ∧
    (runOpens initState
        (runClicks [] [ClickEv.mk "root/src/index.ts" (FileHandleM.mk 1 "index.ts") 0,
          ClickEv.mk "root/README.md" (FileHandleM.mk 2 "README.md") 300,
          ClickEv.mk "root/README.md" (FileHandleM.mk 2 "README.md") 400] 1000)).previewW =
      some 3 := by
  refine ⟨?_, ?_, ?_⟩ <;> decide

end LocalWebEditor
